import Mathlib

/-!
Verification of the URL-classification and retry logic of the
`Download_youtube_streamlit` repository (source: `src/main.py`,
class `VideoDownloader`).

Strings are embedded as `List Char`; the Python string methods used by the
source (`str.startswith`, the `in` substring test, `re.search`) are embedded
as the executable functions `begins`, `containsSub` and `findVid` below.
-/

set_option autoImplicit false

abbrev Str := List Char

abbrev Bytes := List Nat

/-- Embedding of Python `s.startswith(p)`: `p` is a prefix of `s`. -/
def begins : Str → Str → Bool
  | [], _ => true
  | _ :: _, [] => false
  | p :: ps, c :: cs => p == c && begins ps cs

/-- Embedding of Python `p in s`: `p` occurs contiguously inside `s`. -/
def containsSub (p : Str) (s : Str) : Bool :=
  begins p s ||
    match s with
    | [] => false
    | _ :: rest => containsSub p rest

/-- `'https://www.youtube.com/'` (main.py line 32). -/
def ytP1 : Str := "https://www.youtube.com/".toList

/-- `'https://youtu.be/'` (main.py line 32). -/
def ytP2 : Str := "https://youtu.be/".toList

/-- `'https://v.youku.com/'` (main.py line 33). -/
def ykP1 : Str := "https://v.youku.com/".toList

/-- `'https://m.youku.com/'` (main.py line 33). -/
def ykP2 : Str := "https://m.youku.com/".toList

/-- `'youku.com'` (main.py lines 33, 49, 64). -/
def youkuL : Str := "youku.com".toList

/-- `VideoDownloader.validate_url` (main.py lines 21-34). -/
def validate_url (url : Str) : Bool :=
  (begins ytP1 url || begins ytP2 url) ||
    ((begins ykP1 url || begins ykP2 url) || containsSub youkuL url)

/-- The values returned by `VideoDownloader.get_video_source`. -/
inductive Source
  | youtube
  | youku
  | unknown
deriving DecidableEq

/-- `VideoDownloader.get_video_source` (main.py lines 36-51). -/
def get_video_source (url : Str) : Source :=
  if begins ytP1 url || begins ytP2 url then Source.youtube
  else if containsSub youkuL url then Source.youku
  else Source.unknown

/-- `'vid='`, the literal part of the regex `vid=([^&]+)` (main.py line 66). -/
def vid4 : Str := "vid=".toList

/-- Embedding of `re.search(r'vid=([^&]+)', url)` (main.py line 66):
scan left to right for the first position where `vid=` occurs followed by at
least one non-`'&'` character, and return the maximal (greedy) run of
non-`'&'` characters after it; `none` when no position matches. -/
def findVid : Str → Option Str
  | [] => none
  | c :: rest =>
    if begins vid4 (c :: rest) then
      if (List.drop vid4.length (c :: rest)).takeWhile (fun a => a != '&') = [] then
        findVid rest
      else some ((List.drop vid4.length (c :: rest)).takeWhile (fun a => a != '&'))
    else findVid rest

/-- `'https://v.youku.com/v_show/id_'`, the part of the f-string on
main.py line 70 before the vid. -/
def canonP : Str := "https://v.youku.com/v_show/id_".toList

/-- `'.html'`, the part of the f-string on main.py line 70 after the vid. -/
def canonS : Str := ".html".toList

/-- `VideoDownloader.normalize_youku_url` (main.py lines 53-72). -/
def normalize_youku_url (url : Str) : Str :=
  if containsSub youkuL url && containsSub vid4 url then
    match findVid url with
    | some vid => canonP ++ vid ++ canonS
    | none => url
  else url

/-- Modelled from the spec: claim C3's reading of the extraction, which takes
the maximal run of non-`'&'` characters after the FIRST occurrence of `vid=`
unconditionally (even when that run is empty). Defined only to be compared
with `normalize_youku_url`, which embeds the source's regex search. -/
def firstVidAfter : Str → Str
  | [] => []
  | c :: rest =>
    if begins vid4 (c :: rest) then
      (List.drop vid4.length (c :: rest)).takeWhile (fun a => a != '&')
    else firstVidAfter rest

/-- Modelled from the spec: the normalization function exactly as claim C3
words it, to be compared with the source's `normalize_youku_url`. -/
def normalize_youku_url_claimed (url : Str) : Str :=
  if containsSub youkuL url && containsSub vid4 url then
    canonP ++ firstVidAfter url ++ canonS
  else url

/-! ### Characterizations of `begins` and `containsSub` -/

theorem begins_iff (p s : Str) : begins p s = true ↔ ∃ t, s = p ++ t := by
  induction p generalizing s with
  | nil =>
    simp [begins]
  | cons a p ih =>
    cases s with
    | nil =>
      simp [begins]
    | cons b s =>
      simp only [begins, Bool.and_eq_true, beq_iff_eq, List.cons_append,
        List.cons.injEq, ih]
      constructor
      · rintro ⟨rfl, t, rfl⟩
        exact ⟨t, rfl, rfl⟩
      · rintro ⟨t, rfl, rfl⟩
        exact ⟨rfl, t, rfl⟩

theorem containsSub_iff (p s : Str) :
    containsSub p s = true ↔ ∃ x y, s = x ++ p ++ y := by
  induction s with
  | nil =>
    rw [containsSub]
    simp only [Bool.or_false, begins_iff]
    constructor
    · rintro ⟨t, ht⟩
      have hp : p = [] := by
        cases p with
        | nil => rfl
        | cons a q => simp at ht
      have ht' : t = [] := by
        subst hp; simpa using ht.symm
      exact ⟨[], [], by simp [hp, ht']⟩
    · rintro ⟨x, y, hxy⟩
      have hx : x = [] ∧ p ++ y = [] := by
        have := hxy.symm
        rw [List.append_assoc] at this
        exact List.append_eq_nil.mp this
      have hp : p = [] := (List.append_eq_nil.mp hx.2).1
      exact ⟨[], by simp [hp]⟩
  | cons c rest ih =>
    rw [containsSub]
    simp only [Bool.or_eq_true, begins_iff, ih]
    constructor
    · rintro (⟨t, ht⟩ | ⟨x, y, hxy⟩)
      · exact ⟨[], t, by simpa using ht⟩
      · exact ⟨c :: x, y, by simp [hxy]⟩
    · rintro ⟨x, y, hxy⟩
      cases x with
      | nil =>
        exact Or.inl ⟨y, by simpa using hxy⟩
      | cons d x =>
        rw [List.cons_append, List.cons_append] at hxy
        injection hxy with h1 h2
        exact Or.inr ⟨x, y, h2⟩

theorem containsSub_append_left (p a b : Str) (h : containsSub p a = true) :
    containsSub p (a ++ b) = true := by
  obtain ⟨x, y, rfl⟩ := (containsSub_iff p a).mp h
  exact (containsSub_iff p _).mpr ⟨x, y ++ b, by simp⟩

theorem containsSub_append_right (p a b : Str) (h : containsSub p b = true) :
    containsSub p (a ++ b) = true := by
  obtain ⟨x, y, rfl⟩ := (containsSub_iff p b).mp h
  exact (containsSub_iff p _).mpr ⟨a ++ x, y, by simp⟩

theorem containsSub_of_begins (p q url : Str) (h1 : begins q url = true)
    (h2 : containsSub p q = true) : containsSub p url = true := by
  obtain ⟨t, rfl⟩ := (begins_iff q url).mp h1
  exact containsSub_append_left p q t h2

/-! ### Splitting substring occurrences across an append -/

theorem begins_append_split (p a b : Str) (h : begins p (a ++ b) = true) :
    begins p a = true ∨ ∃ t, p = a ++ t ∧ begins t b = true := by
  induction a generalizing p with
  | nil =>
    exact Or.inr ⟨p, rfl, by simpa using h⟩
  | cons c a ih =>
    cases p with
    | nil =>
      exact Or.inl rfl
    | cons d p =>
      rw [List.cons_append] at h
      rw [begins, Bool.and_eq_true, beq_iff_eq] at h
      obtain ⟨rfl, h2⟩ := h
      rcases ih p h2 with h3 | ⟨t, rfl, ht⟩
      · exact Or.inl (by rw [begins, Bool.and_eq_true, beq_iff_eq]; exact ⟨rfl, h3⟩)
      · exact Or.inr ⟨t, rfl, ht⟩

theorem containsSub_of_begins_refl (p s : Str) (h : begins p s = true) :
    containsSub p s = true := by
  rw [containsSub.eq_def, Bool.or_eq_true]
  exact Or.inl h

theorem containsSub_cons (p : Str) (c : Char) (rest : Str)
    (h : containsSub p rest = true) : containsSub p (c :: rest) = true := by
  rw [containsSub, Bool.or_eq_true]
  exact Or.inr h

theorem containsSub_append_split (p a b : Str)
    (h : containsSub p (a ++ b) = true) :
    containsSub p a = true ∨ containsSub p b = true ∨
      ∃ s t, s ++ t = p ∧ s ≠ [] ∧ t ≠ [] ∧ (∃ x, a = x ++ s) ∧
        begins t b = true := by
  induction a with
  | nil =>
    exact Or.inr (Or.inl (by simpa using h))
  | cons c a ih =>
    rw [List.cons_append, containsSub, Bool.or_eq_true] at h
    rcases h with h | h
    · rcases begins_append_split p (c :: a) b h with h1 | ⟨t, rfl, ht⟩
      · exact Or.inl (containsSub_of_begins_refl _ _ h1)
      · cases t with
        | nil =>
          refine Or.inl (containsSub_of_begins_refl _ _ ?_)
          rw [List.append_nil]
          exact (begins_iff _ _).mpr ⟨[], by simp⟩
        | cons e t =>
          exact Or.inr (Or.inr ⟨c :: a, e :: t, rfl, by simp, by simp,
            ⟨[], rfl⟩, ht⟩)
    · rcases ih h with h1 | h1 | ⟨s, t, hst, hs, ht, ⟨x, rfl⟩, hb⟩
      · exact Or.inl (containsSub_cons _ _ _ h1)
      · exact Or.inr (Or.inl h1)
      · exact Or.inr (Or.inr ⟨s, t, hst, hs, ht, ⟨c :: x, rfl⟩, hb⟩)

theorem vid4_eq : vid4 = ['v', 'i', 'd', '='] := by decide

theorem vid4_split_cases (s t : Str) (hs : s ≠ []) (ht : t ≠ [])
    (h : s ++ t = vid4) :
    (s = ['v'] ∧ t = ['i', 'd', '=']) ∨ (s = ['v', 'i'] ∧ t = ['d', '=']) ∨
      (s = ['v', 'i', 'd'] ∧ t = ['=']) := by
  rw [vid4_eq] at h
  rcases s with _ | ⟨a, _ | ⟨b, _ | ⟨c, _ | ⟨d, s⟩⟩⟩⟩
  · exact absurd rfl hs
  · simp only [List.cons_append, List.nil_append, List.cons.injEq] at h
    obtain ⟨rfl, h⟩ := h
    exact Or.inl ⟨rfl, h⟩
  · simp only [List.cons_append, List.nil_append, List.cons.injEq] at h
    obtain ⟨rfl, rfl, h⟩ := h
    exact Or.inr (Or.inl ⟨rfl, h⟩)
  · simp only [List.cons_append, List.nil_append, List.cons.injEq] at h
    obtain ⟨rfl, rfl, rfl, h⟩ := h
    exact Or.inr (Or.inr ⟨rfl, h⟩)
  · exfalso
    simp only [List.cons_append, List.cons.injEq] at h
    obtain ⟨-, -, -, -, h⟩ := h
    have := congrArg List.length h
    simp at this
    exact ht this.2

/-! ### Correctness of the regex-search embedding `findVid` -/

theorem takeWhile_head_amp (c : Char) (w : Str)
    (h : (c :: w).takeWhile (fun a => a != '&') = []) : c = '&' := by
  by_contra hc
  have hfc : (c != '&') = true := by simpa using hc
  rw [List.takeWhile_cons] at h
  simp only [hfc, if_true] at h
  exact List.cons_ne_nil _ _ h

theorem takeWhile_head_ne_amp (c : Char) (w : Str)
    (h : (c :: w).takeWhile (fun a => a != '&') ≠ []) : c ≠ '&' := by
  intro hc
  apply h
  rw [List.takeWhile_cons]
  simp [hc]

theorem drop_of_eq_append (d : Char) (rest t : Str)
    (h : d :: rest = vid4 ++ t) :
    List.drop vid4.length (d :: rest) = t := by
  rw [h, List.drop_left]

/-- When `findVid` finds nothing, no occurrence of `vid=` in the string is
followed by a non-`'&'` character. -/
theorem findVid_eq_none (url : Str) (h : findVid url = none) :
    ∀ x c w, url = x ++ vid4 ++ c :: w → c = '&' := by
  induction url with
  | nil =>
    intro x c w hw
    exfalso
    have := congrArg List.length hw
    simp [vid4_eq] at this
    omega
  | cons d rest ih =>
    rw [findVid] at h
    by_cases hb : begins vid4 (d :: rest) = true
    · rw [if_pos hb] at h
      by_cases hv :
          (List.drop vid4.length (d :: rest)).takeWhile (fun a => a != '&') = []
      · rw [if_pos hv] at h
        intro x c w hw
        cases x with
        | nil =>
          rw [List.nil_append] at hw
          rw [drop_of_eq_append d rest (c :: w) hw] at hv
          exact takeWhile_head_amp c w hv
        | cons a x =>
          rw [List.cons_append, List.cons_append] at hw
          injection hw with h1 h2
          exact ih h x c w (by rw [h2])
      · rw [if_neg hv] at h
        exact absurd h (Option.some_ne_none _)
    · rw [if_neg hb] at h
      intro x c w hw
      cases x with
      | nil =>
        rw [List.nil_append] at hw
        exact absurd ((begins_iff vid4 (d :: rest)).mpr ⟨c :: w, by simpa using hw⟩) hb
      | cons a x =>
        rw [List.cons_append, List.cons_append] at hw
        injection hw with h1 h2
        exact ih h x c w (by rw [h2])

/-- When `findVid` returns `some v`, the string decomposes at the first
occurrence of `vid=` that is followed by a non-`'&'` character, and `v` is
the maximal run of non-`'&'` characters following it. -/
theorem findVid_eq_some (url v : Str) (h : findVid url = some v) :
    ∃ x c w, url = x ++ vid4 ++ c :: w ∧ c ≠ '&' ∧
      v = (c :: w).takeWhile (fun a => a != '&') ∧
      ∀ x2 c2 w2, url = x2 ++ vid4 ++ c2 :: w2 → c2 ≠ '&' →
        x.length ≤ x2.length := by
  induction url with
  | nil =>
    exact absurd h (by simp [findVid])
  | cons d rest ih =>
    rw [findVid] at h
    by_cases hb : begins vid4 (d :: rest) = true
    · by_cases hv :
          (List.drop vid4.length (d :: rest)).takeWhile (fun a => a != '&') = []
      · rw [if_pos hb, if_pos hv] at h
        obtain ⟨x, c, w, hrest, hc, hvv, hmin⟩ := ih h
        refine ⟨d :: x, c, w, by rw [List.cons_append, List.cons_append, hrest],
          hc, hvv, ?_⟩
        intro x2 c2 w2 h2 hc2
        cases x2 with
        | nil =>
          exfalso
          rw [List.nil_append] at h2
          rw [drop_of_eq_append d rest (c2 :: w2) h2] at hv
          exact hc2 (takeWhile_head_amp c2 w2 hv)
        | cons a x2 =>
          rw [List.cons_append, List.cons_append] at h2
          injection h2 with h3 h4
          have := hmin x2 c2 w2 (by rw [h4]) hc2
          simp only [List.length_cons]
          omega
      · rw [if_pos hb, if_neg hv] at h
        obtain ⟨t, ht⟩ := (begins_iff vid4 (d :: rest)).mp hb
        have hdrop := drop_of_eq_append d rest t ht
        cases t with
        | nil =>
          exfalso
          rw [hdrop] at hv
          exact hv rfl
        | cons c w =>
          rw [hdrop] at h hv
          refine ⟨[], c, w, by simpa using ht, takeWhile_head_ne_amp c w hv,
            by injection h with h1; exact h1.symm, ?_⟩
          intro x2 c2 w2 h2 hc2
          simp
    · rw [if_neg hb] at h
      obtain ⟨x, c, w, hrest, hc, hvv, hmin⟩ := ih h
      refine ⟨d :: x, c, w, by rw [List.cons_append, List.cons_append, hrest],
        hc, hvv, ?_⟩
      intro x2 c2 w2 h2 hc2
      cases x2 with
      | nil =>
        exfalso
        rw [List.nil_append] at h2
        exact hb ((begins_iff vid4 (d :: rest)).mpr ⟨c2 :: w2, by simpa using h2⟩)
      | cons a x2 =>
        rw [List.cons_append, List.cons_append] at h2
        injection h2 with h3 h4
        have := hmin x2 c2 w2 (by rw [h4]) hc2
        simp only [List.length_cons]
        omega

/-! ### The download core (main.py lines 183-299)

`download_video_content` wraps one external fetch collaborator
(`yt-dlp`'s `YoutubeDL(...).download([url])`, main.py lines 236-237) in a
bounded retry loop.  The collaborator is embedded as a function from the
(possibly normalized) url and the 0-based attempt index to an outcome:
either it raises an exception carrying a message, or it succeeds, leaving
the scratch directory holding a list of `(file name, file bytes)` entries
(the directory state that lines 254-261 then read back).  The `mode`,
`use_cookies` and `clear_cache_first` arguments only shape the option
dictionary handed to the collaborator (lines 199-227) and are carried as
opaque parameters; `clear_cache` (lines 154-181) catches all its own
exceptions and touches nothing the trace observes. -/

/-- One entry of the scratch directory: base name and binary contents. -/
abbrev DirFiles := List (Str × Bytes)

/-- Outcome of one invocation of the fetch collaborator. -/
inductive FetchOutcome
  | ok (files : DirFiles)
  | err (msg : Str)
deriving DecidableEq

/-- `'403' in error_msg or 'Forbidden' in error_msg` (main.py lines 244, 269). -/
def contains403 (msg : Str) : Bool :=
  containsSub ("403".toList) msg || containsSub ("Forbidden".toList) msg

/-- The message of the exception raised on main.py line 250 when the 403
error persists through the last allowed attempt. -/
def persistent403L : Str := "403エラーが継続しています。後で再試行してください。".toList

/-- `max_attempts = 3` (main.py line 230). -/
def max_attempts : Nat := 3

/-- How `download_video_content` classifies its exit, observable in the
user-facing messages of main.py lines 254-299: success with a payload,
silent `None` on an empty scratch directory (line 262), the 403 advice
block (lines 269-288) for an exception whose message matches the 403
signature, or the raw diagnostic (line 266) otherwise. -/
inductive Classification
  | succeeded
  | emptyOutput
  | persistentForbidden
  | otherFailure (msg : Str)
deriving DecidableEq

/-- Observable behaviour of one call of `download_video_content`: how many
fetch attempts ran, the backoff sleeps performed (in order, seconds), the
returned value, the exit classification and whether the scratch directory
is gone afterwards. -/
structure DownloadTrace where
  attempts : Nat
  sleeps : List Nat
  ret : Option (Bytes × Str)
  classification : Classification
  dirRemoved : Bool
deriving DecidableEq

/-- The retry loop `for attempt in range(max_attempts)` (main.py lines
229-252), run over the list of remaining attempt indices (`[0, 1, 2]` at
entry).  Returns the number of attempts made, the sleeps performed, and
either the scratch-directory contents after the `break` on success or the
exception that escaped the loop.  The source's retry condition
`attempt < max_attempts - 1` (line 245) is exactly `rest ≠ []` on the
remaining indices; a failure always either retries or raises, so the
loop never exhausts its index list (the `[]` equation is dead code). -/
def runAttempts (fetch : Nat → FetchOutcome) :
    List Nat → Nat × List Nat × Except Str DirFiles
  | [] => (0, [], Except.error [])
  | attempt :: rest =>
    match fetch attempt with
    | FetchOutcome.ok files => (1, [], Except.ok files)
    | FetchOutcome.err msg =>
      if contains403 msg then
        match rest with
        | [] => (1, [], Except.error persistent403L)
        | r :: rs =>
          let next := runAttempts fetch (r :: rs)
          (next.1 + 1, (attempt + 1) * 2 :: next.2.1, next.2.2)
      else (1, [], Except.error msg)

/-- `VideoDownloader.download_video_content` (main.py lines 183-299).
Lines 203-209 normalize the url when its source is Youku; the
`with tempfile.TemporaryDirectory()` block guarantees the scratch
directory is removed on every exit path (`dirRemoved := true`); lines
254-262 read back the first directory entry after a successful loop;
the outer `except` (lines 264-299) converts any escaped exception into
`None`, choosing the 403 advice block exactly when the message matches
the 403 signature. -/
def download_video_content (url mode : Str) (use_cookies clear_cache_first : Bool)
    (fetch : Str → Nat → FetchOutcome) : DownloadTrace :=
  let url2 := if get_video_source url = Source.youku then normalize_youku_url url else url
  match runAttempts (fetch url2) (List.range max_attempts) with
  | (n, ss, Except.ok []) =>
    { attempts := n, sleeps := ss, ret := none,
      classification := Classification.emptyOutput, dirRemoved := true }
  | (n, ss, Except.ok ((name, data) :: _)) =>
    { attempts := n, sleeps := ss, ret := some (data, name),
      classification := Classification.succeeded, dirRemoved := true }
  | (n, ss, Except.error m) =>
    { attempts := n, sleeps := ss, ret := none,
      classification :=
        if contains403 m then Classification.persistentForbidden
        else Classification.otherFailure m,
      dirRemoved := true }

/-- `'clip.mp4'`, the file name used by the spec's output-resolution
scenario. -/
def clipName : Str := "clip.mp4".toList

/-! ### Claims about the URL classifier -/

/-- Claim C4: `validate_url url` is true exactly when `url` starts with
`https://www.youtube.com/`, `https://youtu.be/`, `https://v.youku.com/` or
`https://m.youku.com/`, or contains `youku.com` anywhere; every string
satisfying none of these yields `false`. -/
theorem C4_validate_url_characterization (url : Str) :
    validate_url url = true ↔
      ((∃ t, url = ytP1 ++ t) ∨ (∃ t, url = ytP2 ++ t) ∨ (∃ t, url = ykP1 ++ t) ∨
        (∃ t, url = ykP2 ++ t) ∨ ∃ x y, url = x ++ youkuL ++ y) := by
  rw [validate_url]
  simp only [Bool.or_eq_true, begins_iff, containsSub_iff]
  tauto

/-- Claim C5: `get_video_source` is total, mapping every string to one of
the three sources, and the YouTube prefix test comes first, so every
YouTube-prefixed url classifies as `youtube` even when it also contains
`youku.com`. -/
theorem C5_get_video_source_total (url : Str) :
    (get_video_source url = Source.youtube ∨ get_video_source url = Source.youku ∨
        get_video_source url = Source.unknown) ∧
      (((∃ t, url = ytP1 ++ t) ∨ (∃ t, url = ytP2 ++ t)) →
        get_video_source url = Source.youtube) := by
  constructor
  · rw [get_video_source]
    split
    · exact Or.inl rfl
    · split
      · exact Or.inr (Or.inl rfl)
      · exact Or.inr (Or.inr rfl)
  · intro h
    have hb : (begins ytP1 url || begins ytP2 url) = true := by
      rcases h with ⟨t, rfl⟩ | ⟨t, rfl⟩
      · rw [(begins_iff ytP1 (ytP1 ++ t)).mpr ⟨t, rfl⟩, Bool.true_or]
      · rw [(begins_iff ytP2 (ytP2 ++ t)).mpr ⟨t, rfl⟩, Bool.or_true]
    rw [get_video_source, if_pos hb]

/-- Witness for claim C5 at a concrete input: a YouTube-prefixed url that
also contains `youku.com` classifies as `youtube`. -/
theorem C5_get_video_source_total_witness :
    get_video_source ("https://youtu.be/abc?ref=youku.com".toList) = Source.youtube ∧
      containsSub youkuL ("https://youtu.be/abc?ref=youku.com".toList) = true :=
  ⟨(C5_get_video_source_total _).2 (Or.inr ⟨"abc?ref=youku.com".toList, by decide⟩),
    by decide⟩

/-- Claim C10: `validate_url` and `get_video_source` agree on every input:
validation succeeds exactly when the source is a recognized platform. -/
theorem C10_validate_agrees_with_source (url : Str) :
    validate_url url = true ↔ get_video_source url ≠ Source.unknown := by
  rw [validate_url, get_video_source]
  by_cases hyt : (begins ytP1 url || begins ytP2 url) = true
  · rw [if_pos hyt]
    simp [hyt]
  · rw [if_neg hyt]
    by_cases hyk : containsSub youkuL url = true
    · rw [if_pos hyk]
      simp [hyk]
    · rw [if_neg hyk]
      have hk1 : begins ykP1 url = false := by
        cases hb : begins ykP1 url
        · rfl
        · exact absurd (containsSub_of_begins youkuL ykP1 url hb (by decide)) hyk
      have hk2 : begins ykP2 url = false := by
        cases hb : begins ykP2 url
        · rfl
        · exact absurd (containsSub_of_begins youkuL ykP2 url hb (by decide)) hyk
      have hyk' : containsSub youkuL url = false := by
        cases hb : containsSub youkuL url
        · rfl
        · exact absurd hb hyk
      have hyt' : (begins ytP1 url || begins ytP2 url) = false := by
        cases hb : (begins ytP1 url || begins ytP2 url)
        · rfl
        · exact absurd hb hyt
      simp [hyt', hk1, hk2, hyk']

/-! ### Claims about the retry loop -/

/-- Claim C1: a fetch collaborator that raises a 403-signature error on
every invocation drives `download_video_content` through exactly 3
attempts, with backoff sleeps of exactly 2 then 4 seconds, ending in the
persistent-403 classification with no fourth attempt. -/
theorem C1_persistent_forbidden_three_attempts (url mode : Str) (uc cc : Bool)
    (fetch : Str → Nat → FetchOutcome)
    (H : ∀ u n, ∃ m, fetch u n = FetchOutcome.err m ∧ contains403 m = true) :
    download_video_content url mode uc cc fetch =
      { attempts := 3, sleeps := [2, 4], ret := none,
        classification := Classification.persistentForbidden,
        dirRemoved := true } := by
  simp only [download_video_content]
  set u := if get_video_source url = Source.youku then normalize_youku_url url else url
    with hu
  obtain ⟨m0, hf0, hc0⟩ := H u 0
  obtain ⟨m1, hf1, hc1⟩ := H u 1
  obtain ⟨m2, hf2, hc2⟩ := H u 2
  rw [show List.range max_attempts = [0, 1, 2] from rfl]
  have h2 : runAttempts (fetch u) [2] = (1, [], Except.error persistent403L) := by
    rw [runAttempts, hf2]
    simp [hc2]
  have h1 : runAttempts (fetch u) [1, 2] = (2, [4], Except.error persistent403L) := by
    rw [runAttempts, hf1]
    simp [hc1, h2]
  have h0 : runAttempts (fetch u) [0, 1, 2] = (3, [2, 4], Except.error persistent403L) := by
    rw [runAttempts, hf0]
    simp [hc0, h1]
  rw [h0]
  rfl

/-- Witness for claim C1 at a concrete input: a collaborator that always
raises `HTTP Error 403: Forbidden`. -/
theorem C1_persistent_forbidden_three_attempts_witness :
    download_video_content ("https://www.youtube.com/watch".toList) ("映像".toList)
        false false (fun _ _ => FetchOutcome.err ("HTTP Error 403: Forbidden".toList)) =
      { attempts := 3, sleeps := [2, 4], ret := none,
        classification := Classification.persistentForbidden,
        dirRemoved := true } :=
  C1_persistent_forbidden_three_attempts _ _ _ _ _
    (fun _ _ => ⟨"HTTP Error 403: Forbidden".toList, rfl, by decide⟩)

/-- Claim C6: a fetch collaborator that raises a non-403 error on the first
attempt makes `download_video_content` stop after exactly 1 attempt, with no
backoff sleep, in the other-failure classification. -/
theorem C6_non403_fails_immediately (url mode : Str) (uc cc : Bool)
    (fetch : Str → Nat → FetchOutcome) (m : Str)
    (H : ∀ u, fetch u 0 = FetchOutcome.err m) (hm : contains403 m = false) :
    download_video_content url mode uc cc fetch =
      { attempts := 1, sleeps := [], ret := none,
        classification := Classification.otherFailure m, dirRemoved := true } := by
  simp only [download_video_content]
  set u := if get_video_source url = Source.youku then normalize_youku_url url else url
    with hu
  rw [show List.range max_attempts = [0, 1, 2] from rfl]
  rw [runAttempts, H u]
  simp [hm]

/-- Witness for claim C6 at a concrete input: a collaborator raising a
non-403 error on the first attempt. -/
theorem C6_non403_fails_immediately_witness :
    download_video_content ("https://youtu.be/a".toList) ("音声のみ".toList)
        false false (fun _ _ => FetchOutcome.err ("Network unreachable".toList)) =
      { attempts := 1, sleeps := [], ret := none,
        classification := Classification.otherFailure ("Network unreachable".toList),
        dirRemoved := true } :=
  C6_non403_fails_immediately _ _ _ _ _ _ (fun _ => rfl) (by decide)

/-- Claim C7: a fetch collaborator that succeeds leaving exactly one file
`clip.mp4` in the scratch directory makes `download_video_content` return
that file's bytes paired with its name, and the scratch directory is gone
afterwards. -/
theorem C7_success_returns_clip (url mode : Str) (uc cc : Bool)
    (fetch : Str → Nat → FetchOutcome) (b : Bytes)
    (H : ∀ u, fetch u 0 = FetchOutcome.ok [(clipName, b)]) :
    download_video_content url mode uc cc fetch =
      { attempts := 1, sleeps := [], ret := some (b, clipName),
        classification := Classification.succeeded, dirRemoved := true } := by
  simp only [download_video_content]
  set u := if get_video_source url = Source.youku then normalize_youku_url url else url
    with hu
  rw [show List.range max_attempts = [0, 1, 2] from rfl]
  rw [runAttempts, H u]

/-- Witness for claim C7 at a concrete input: a collaborator writing one
file `clip.mp4` with bytes `[7, 7, 7]`. -/
theorem C7_success_returns_clip_witness :
    download_video_content ("https://youtu.be/a".toList) ("映像".toList)
        false false (fun _ _ => FetchOutcome.ok [(clipName, [7, 7, 7])]) =
      { attempts := 1, sleeps := [], ret := some ([7, 7, 7], clipName),
        classification := Classification.succeeded, dirRemoved := true } :=
  C7_success_returns_clip _ _ _ _ _ _ (fun _ => rfl)

/-- Claim C8: a fetch collaborator that reports success but leaves the
scratch directory empty makes `download_video_content` return a failure
(no byte payload) in the empty-output classification, without crashing. -/
theorem C8_empty_scratch_dir (url mode : Str) (uc cc : Bool)
    (fetch : Str → Nat → FetchOutcome)
    (H : ∀ u, fetch u 0 = FetchOutcome.ok []) :
    download_video_content url mode uc cc fetch =
      { attempts := 1, sleeps := [], ret := none,
        classification := Classification.emptyOutput, dirRemoved := true } := by
  simp only [download_video_content]
  set u := if get_video_source url = Source.youku then normalize_youku_url url else url
    with hu
  rw [show List.range max_attempts = [0, 1, 2] from rfl]
  rw [runAttempts, H u]

/-- Witness for claim C8 at a concrete input: a collaborator succeeding
while leaving no file behind. -/
theorem C8_empty_scratch_dir_witness :
    download_video_content ("https://youtu.be/a".toList) ("映像".toList)
        false false (fun _ _ => FetchOutcome.ok []) =
      { attempts := 1, sleeps := [], ret := none,
        classification := Classification.emptyOutput, dirRemoved := true } :=
  C8_empty_scratch_dir _ _ _ _ _ (fun _ => rfl)

/-- Claim C9: for every input and every fetch collaborator behaviour,
`download_video_content` never lets an exception escape: it always
produces a trace, whose return value is a `(bytes, name)` pair exactly in
the succeeded classification and `none` in every failure classification. -/
theorem C9_no_uncaught_failure (url mode : Str) (uc cc : Bool)
    (fetch : Str → Nat → FetchOutcome) :
    ((download_video_content url mode uc cc fetch).classification =
          Classification.succeeded ∧
        ∃ b n, (download_video_content url mode uc cc fetch).ret = some (b, n)) ∨
      ((download_video_content url mode uc cc fetch).classification ≠
          Classification.succeeded ∧
        (download_video_content url mode uc cc fetch).ret = none) := by
  simp only [download_video_content]
  rcases hrun : runAttempts
      (fetch (if get_video_source url = Source.youku then normalize_youku_url url else url))
      (List.range max_attempts) with ⟨n, ss, m | files⟩
  · by_cases h43 : contains403 m = true
    · simp [h43]
    · simp [h43]
  · cases files with
    | nil => simp
    | cons f fs =>
      rcases f with ⟨name, data⟩
      exact Or.inl ⟨rfl, data, name, rfl⟩

/-! ### Claims about `normalize_youku_url` -/

theorem normalize_unchanged_of_cond_false (url : Str)
    (h : (containsSub youkuL url && containsSub vid4 url) = false) :
    normalize_youku_url url = url := by
  simp [normalize_youku_url, h]

/-- Counterexample to claim C3 as stated: on
`youku.com?vid=&vid=ABC` the first `vid=` is followed directly by `'&'`,
so the source's regex search skips it and extracts `ABC` from the second
occurrence, while the claim prescribes the empty run after the first
occurrence; the code's output matches neither of the claim's two cases. -/
theorem C3_first_vid_counterexample :
    normalize_youku_url ("youku.com?vid=&vid=ABC".toList) =
        "https://v.youku.com/v_show/id_ABC.html".toList ∧
      normalize_youku_url_claimed ("youku.com?vid=&vid=ABC".toList) =
        "https://v.youku.com/v_show/id_.html".toList ∧
      normalize_youku_url ("youku.com?vid=&vid=ABC".toList) ≠
        normalize_youku_url_claimed ("youku.com?vid=&vid=ABC".toList) ∧
      normalize_youku_url ("youku.com?vid=&vid=ABC".toList) ≠
        "youku.com?vid=&vid=ABC".toList :=
  ⟨by decide, by decide, by decide, by decide⟩

/-- Claim C3 (amended): for every string containing `youku.com` and at
least one occurrence of `vid=` followed by a non-`'&'` character,
`normalize_youku_url` picks the FIRST such occurrence, extracts the
maximal run of non-`'&'` characters after it, and returns exactly
`https://v.youku.com/v_show/id_{vid}.html`; every other string is
returned unchanged. -/
theorem C3_normalize_first_valid_vid (url : Str) :
    (containsSub youkuL url = true ∧ (∃ x c w, url = x ++ vid4 ++ c :: w ∧ c ≠ '&') →
      ∃ x c w, url = x ++ vid4 ++ c :: w ∧ c ≠ '&' ∧
        normalize_youku_url url =
          canonP ++ (c :: w).takeWhile (fun a => a != '&') ++ canonS ∧
        ∀ x2 c2 w2, url = x2 ++ vid4 ++ c2 :: w2 → c2 ≠ '&' →
          x.length ≤ x2.length) ∧
    (¬(containsSub youkuL url = true ∧
        (∃ x c w, url = x ++ vid4 ++ c :: w ∧ c ≠ '&')) →
      normalize_youku_url url = url) := by
  constructor
  · rintro ⟨hyk, x, c, w, hw, hc⟩
    have hvid : containsSub vid4 url = true :=
      (containsSub_iff vid4 url).mpr ⟨x, c :: w, hw⟩
    cases hf : findVid url with
    | none => exact absurd (findVid_eq_none url hf x c w hw) hc
    | some v =>
      obtain ⟨x1, c1, w1, hw1, hc1, hv1, hmin1⟩ := findVid_eq_some url v hf
      refine ⟨x1, c1, w1, hw1, hc1, ?_, hmin1⟩
      rw [normalize_youku_url, if_pos (by rw [hyk, hvid]; rfl), hf, hv1]
  · intro hneg
    by_cases hyk : containsSub youkuL url = true
    · by_cases hvid : containsSub vid4 url = true
      · cases hf : findVid url with
        | none =>
          rw [normalize_youku_url, if_pos (by rw [hyk, hvid]; rfl), hf]
        | some v =>
          exfalso
          obtain ⟨x1, c1, w1, hw1, hc1, -, -⟩ := findVid_eq_some url v hf
          exact hneg ⟨hyk, x1, c1, w1, hw1, hc1⟩
      · exact normalize_unchanged_of_cond_false url
          (by rw [Bool.eq_false_iff.mpr hvid, Bool.and_false])
    · exact normalize_unchanged_of_cond_false url
        (by rw [Bool.eq_false_iff.mpr hyk, Bool.false_and])

/-- Witness for the amended claim C3 at concrete inputs: on
`youku.com?vid=AB` the vid `AB` is extracted at the occurrence starting
after the 10-character prefix, and `https://example.com` is returned
unchanged. -/
theorem C3_normalize_first_valid_vid_witness :
    (∃ x c w, ("youku.com?vid=AB".toList : Str) = x ++ vid4 ++ c :: w ∧ c ≠ '&' ∧
      normalize_youku_url ("youku.com?vid=AB".toList) =
        canonP ++ (c :: w).takeWhile (fun a => a != '&') ++ canonS ∧
      ∀ x2 c2 w2, ("youku.com?vid=AB".toList : Str) = x2 ++ vid4 ++ c2 :: w2 →
        c2 ≠ '&' → x.length ≤ x2.length) ∧
    normalize_youku_url ("https://example.com".toList) = "https://example.com".toList :=
  ⟨(C3_normalize_first_valid_vid ("youku.com?vid=AB".toList)).1
      ⟨by decide, "youku.com?".toList, 'A', "B".toList, by decide, by decide⟩,
    (C3_normalize_first_valid_vid ("https://example.com".toList)).2
      (fun h => absurd h.1 (by decide))⟩

/-- Counterexample to claim C2 as stated: on `youku.com?vid=Xvid=Y` the
extracted vid `Xvid=Y` itself contains `vid=`, so a second application
re-extracts from the rewritten url and changes it again —
`normalize_youku_url` is not idempotent on every input. -/
theorem C2_idempotent_counterexample :
    normalize_youku_url (normalize_youku_url ("youku.com?vid=Xvid=Y".toList)) ≠
      normalize_youku_url ("youku.com?vid=Xvid=Y".toList) := by
  decide

/-- Claim C2 (amended): `normalize_youku_url` is idempotent on every url
whose extracted vid (when one is extracted at all) does not itself contain
the substring `vid=`. -/
theorem C2_idempotent_unless_vid_in_vid (url : Str)
    (H : Option.all (fun v => !containsSub vid4 v) (findVid url) = true) :
    normalize_youku_url (normalize_youku_url url) = normalize_youku_url url := by
  by_cases hcond : (containsSub youkuL url && containsSub vid4 url) = true
  · cases hf : findVid url with
    | none =>
      have h1 : normalize_youku_url url = url := by
        rw [normalize_youku_url, if_pos hcond, hf]
      rw [h1]
      exact h1
    | some v =>
      have hnv : containsSub vid4 v = false := by
        rw [hf] at H
        simpa using H
      have h1 : normalize_youku_url url = canonP ++ v ++ canonS := by
        rw [normalize_youku_url, if_pos hcond, hf]
      rw [h1]
      have hkey : containsSub vid4 (canonP ++ v ++ canonS) = false := by
        cases hcc : containsSub vid4 (canonP ++ v ++ canonS)
        · rfl
        · exfalso
          have hcc2 : containsSub vid4 (canonP ++ (v ++ canonS)) = true := by
            rw [← List.append_assoc]
            exact hcc
          rcases containsSub_append_split vid4 canonP (v ++ canonS) hcc2 with
            h | h | ⟨s, t, hst, hs, ht, ⟨x, hx⟩, hb⟩
          · exact absurd h (by decide)
          · rcases containsSub_append_split vid4 v canonS h with
              h2 | h2 | ⟨s, t, hst, hs, ht, ⟨x, hx⟩, hb⟩
            · rw [hnv] at h2
              exact Bool.false_ne_true h2
            · exact absurd h2 (by decide)
            · rcases vid4_split_cases s t hs ht hst with
                ⟨rfl, rfl⟩ | ⟨rfl, rfl⟩ | ⟨rfl, rfl⟩
              · exact absurd hb (by decide)
              · exact absurd hb (by decide)
              · exact absurd hb (by decide)
          · rcases vid4_split_cases s t hs ht hst with
              ⟨rfl, rfl⟩ | ⟨rfl, rfl⟩ | ⟨rfl, rfl⟩
            · have hrev : List.reverse canonP = List.reverse ['v'] ++ List.reverse x := by
                rw [hx, List.reverse_append]
              exact absurd ((begins_iff _ _).mpr ⟨List.reverse x, hrev⟩) (by decide)
            · have hrev : List.reverse canonP =
                  List.reverse ['v', 'i'] ++ List.reverse x := by
                rw [hx, List.reverse_append]
              exact absurd ((begins_iff _ _).mpr ⟨List.reverse x, hrev⟩) (by decide)
            · have hrev : List.reverse canonP =
                  List.reverse ['v', 'i', 'd'] ++ List.reverse x := by
                rw [hx, List.reverse_append]
              exact absurd ((begins_iff _ _).mpr ⟨List.reverse x, hrev⟩) (by decide)
      exact normalize_unchanged_of_cond_false (canonP ++ v ++ canonS)
        (by rw [hkey, Bool.and_false])
  · have h1 : normalize_youku_url url = url :=
      normalize_unchanged_of_cond_false url (Bool.eq_false_iff.mpr hcond)
    rw [h1]
    exact h1

/-- Witness for the amended claim C2 at a concrete input: on
`youku.com?vid=ABC` the extracted vid `ABC` contains no `vid=`, and
normalization is idempotent there. -/
theorem C2_idempotent_unless_vid_in_vid_witness :
    normalize_youku_url (normalize_youku_url ("youku.com?vid=ABC".toList)) =
      normalize_youku_url ("youku.com?vid=ABC".toList) :=
  C2_idempotent_unless_vid_in_vid ("youku.com?vid=ABC".toList) (by decide)
